import Mathlib

/-!
Verification of the geometric core of the CitiesSkylinesOSM converter
(src/python/cs2_converter.py).

Shallow embedding conventions:
* Python floats are modelled as rationals; all arithmetic is exact.
  Python round(x, n) is banker-rounding at exact half-way ties; we use
  round-half-up.  No claim below depends on the behaviour at an exact tie.
* Python dict lookup elevations.get((round(lat,6), round(lon,6)), 0.0) is
  modelled as a total function applied to the rounded pair; the default 0
  is absorbed into the function.
* Python list.sort(key=...) is a stable ascending sort; we model it with
  List.insertionSort over the key order, which is the (unique) stable
  ascending sort by the same key.
* The shapely calls are modelled as follows: LineString.intersection(box)
  is embedded concretely by per-segment parametric clipping against the
  axis-aligned clip rectangle (clipSeg below) chained into maximal
  connected sub-polylines; Polygon.intersection(box) can produce
  multi-polygons with holes, so it is taken as an oracle parameter
  (a PolyGeom value) and geometric facts about it appear as hypotheses.
-/

/-- Total CS2 map edge in metres (source constant CS2_MAP_SIZE). -/
def CS2_MAP_SIZE : ℚ := 57344

/-- Half map extent: the clip rectangle is [-28672, 28672] on both axes. -/
def CS2_HALF_MAP : ℚ := CS2_MAP_SIZE / 2

/-- Python round(q, 2): nearest multiple of 1/100 (half-up at ties). -/
def round2 (q : ℚ) : ℚ := ((round (q * 100) : ℤ) : ℚ) / 100

/-- Python round(q, 6): nearest multiple of 1/10^6 (half-up at ties). -/
def round6 (q : ℚ) : ℚ := ((round (q * 1000000) : ℤ) : ℚ) / 1000000

/-- Metres per degree of latitude (source attribute m_per_lat). -/
def m_per_lat : ℚ := 111320

/-- Projection frame of CoordinateTransformer.__init__.  m_per_lon is
111320 * cos(radians(lat_centre)) in the source; the cosine is
transcendental so the derived scale is kept as a field. -/
structure CoordinateTransformer where
  lat_centre : ℚ
  lon_centre : ℚ
  m_per_lon : ℚ

/-- CoordinateTransformer._xz: lat/lon to CS2 (x, z), no rounding. -/
def CoordinateTransformer.xz (tf : CoordinateTransformer) (lat lon : ℚ) : ℚ × ℚ :=
  ((lon - tf.lon_centre) * tf.m_per_lon, -((lat - tf.lat_centre) * m_per_lat))

/-- A CS2 output point {x, y, z} (y is the elevation). -/
structure CS2Point where
  x : ℚ
  y : ℚ
  z : ℚ
deriving DecidableEq

/-- CoordinateTransformer.to_cs2. -/
def CoordinateTransformer.to_cs2 (tf : CoordinateTransformer)
    (lat lon elevation : ℚ) : CS2Point :=
  let p := tf.xz lat lon
  ⟨round2 p.1, round2 elevation, round2 p.2⟩

/-- CoordinateTransformer.in_bounds. -/
def CoordinateTransformer.in_bounds (tf : CoordinateTransformer)
    (lat lon : ℚ) : Bool :=
  let p := tf.xz lat lon
  decide (|p.1| ≤ CS2_HALF_MAP) && decide (|p.2| ≤ CS2_HALF_MAP)

/-- Key order used by distances.sort(key=lambda t: t[0]): compare the
squared distance component of a (distance, elevation) pair. -/
def distLE (a b : ℚ × ℚ) : Prop := a.1 ≤ b.1

instance : DecidableRel distLE := fun a b => inferInstanceAs (Decidable (a.1 ≤ b.1))

instance : IsTotal (ℚ × ℚ) distLE := ⟨fun a b => le_total a.1 b.1⟩

instance : IsTrans (ℚ × ℚ) distLE := ⟨fun _ _ _ h h2 => le_trans h h2⟩

/-- The (squared distance, elevation) list built by _interp_elevation. -/
def distList (cx cz : ℚ) (nodes_xze : List (ℚ × ℚ × ℚ)) : List (ℚ × ℚ) :=
  nodes_xze.map fun n => ((cx - n.1) ^ 2 + (cz - n.2.1) ^ 2, n.2.2)

/-- CoordinateTransformer._interp_elevation: inverse-distance weighted
elevation from the two nearest source nodes. -/
def interp_elevation (cx cz : ℚ) (nodes_xze : List (ℚ × ℚ × ℚ)) : ℚ :=
  match nodes_xze with
  | [] => 0
  | _ :: _ =>
    match (distList cx cz nodes_xze).insertionSort distLE with
    | [] => 0
    | (d1, e1) :: rest =>
      if d1 = 0 then e1
      else
        match rest with
        | [] => e1
        | (d2, e2) :: _ =>
          let w1 := 1 / (d1 + 1 / 1000000000)
          let w2 := 1 / (d2 + 1 / 1000000000)
          (w1 * e1 + w2 * e2) / (w1 + w2)

/-- Number of grid cells per side in CS2Converter.create_chunks. -/
def n_cells (chunk_size_m : ℚ) : ℤ := ⌈CS2_MAP_SIZE / chunk_size_m⌉

/-- Python int() applied to a float: truncation toward zero. -/
def pyInt (q : ℚ) : ℤ := if q < 0 then ⌈q⌉ else ⌊q⌋

/-- CS2Converter.create_chunks._cell: grid cell of a planar CS2 point. -/
def cell (chunk_size_m x z : ℚ) : ℤ × ℤ :=
  let n := n_cells chunk_size_m
  let col := pyInt ((x + CS2_HALF_MAP) / chunk_size_m)
  let row := pyInt ((z + CS2_HALF_MAP) / chunk_size_m)
  (max 0 (min col (n - 1)), max 0 (min row (n - 1)))

/-- An input transit stop as produced by the OSM parser.  coordinates is
none when the (lon, lat) pair cannot be parsed as numbers, modelling the
try/except skip in the stop loop. -/
structure StopIn where
  sid : String
  name : String
  type : String
  coordinates : Option (ℚ × ℚ)
  is_external : Bool
  is_underground : Bool
  has_shelter : Bool
  has_bench : Bool
  wheelchair : String

/-- An emitted CS2 stop record. -/
structure StopOut where
  id : String
  name : String
  type : String
  position : CS2Point
  is_external : Bool
  is_underground : Bool
  has_shelter : Bool
  has_bench : Bool
  wheelchair : String

/-- A fully populated fare record (values of CS2Converter.TRANSIT_FARES). -/
structure Fare where
  base_fare : ℚ
  day_pass : Option ℚ
  currency : String
  source : Option String

/-- A fare parsed from OSM tags: a partial record merged over defaults. -/
structure OsmFare where
  base_fare : Option ℚ
  day_pass : Option ℚ
  currency : Option String

/-- An input transit route. -/
structure RouteIn where
  rid : String
  name : String
  ref : String
  route_type : String
  operator : String
  colour : String
  network : String
  from_loc : String
  to_loc : String
  is_intercity : Bool
  stop_ids : List String
  fare : Option OsmFare

/-- An emitted CS2 route record. -/
structure RouteOut where
  id : String
  name : String
  number : String
  type : String
  operator : String
  colour : String
  network : String
  from_loc : String
  to_loc : String
  is_intercity : Bool
  stops : List String
  fare : Fare

/-- CS2Converter.TRANSIT_FARES (no per-city overrides passed, so the
merged _fares table equals the defaults). -/
def TRANSIT_FARES (rt : String) : Option Fare :=
  if rt = "bus" then some ⟨3/2, some 5, "EUR", none⟩
  else if rt = "tram" then some ⟨3/2, some 5, "EUR", none⟩
  else if rt = "train" then some ⟨7/2, some 18, "EUR", none⟩
  else if rt = "subway" then some ⟨9/5, some 7, "EUR", none⟩
  else if rt = "light_rail" then some ⟨9/5, some 7, "EUR", none⟩
  else if rt = "ferry" then some ⟨5/2, some 10, "EUR", none⟩
  else none

/-- CS2Converter.TRANSIT_TYPE_MAP with its get(..., "BusLine") default. -/
def TRANSIT_TYPE_MAP (rt : String) : String :=
  if rt = "bus" then "BusLine"
  else if rt = "tram" then "TramLine"
  else if rt = "train" then "TrainLine"
  else if rt = "subway" then "SubwayLine"
  else if rt = "light_rail" then "MetroLine"
  else "BusLine"

/-- fare_defaults = _fares.get(route_type, _fares.get("bus", {})). -/
def fare_defaults (rt : String) : Fare :=
  (TRANSIT_FARES rt).getD ⟨3/2, some 5, "EUR", none⟩

/-- Python dict merge of a partial OSM fare over the defaults
(source keys win field-wise). -/
def mergeFare (d : Fare) (f : OsmFare) : Fare :=
  { base_fare := f.base_fare.getD d.base_fare
    day_pass := match f.day_pass with | some v => some v | none => d.day_pass
    currency := f.currency.getD d.currency
    source := d.source }

/-- CS2Converter._clamp_to_map_edge: axis-wise clamp of the projected
point to [-half, +half]. -/
def clamp_to_map_edge (tf : CoordinateTransformer) (lat lon elev : ℚ) :
    CS2Point :=
  let p := tf.xz lat lon
  ⟨round2 (max (-CS2_HALF_MAP) (min CS2_HALF_MAP p.1)),
   round2 elev,
   round2 (max (-CS2_HALF_MAP) (min CS2_HALF_MAP p.2))⟩

/-- Body of the stop loop of CS2Converter.convert_transit: the stop record
emitted for one input stop, or none when it is skipped. -/
def convert_stop (tf : CoordinateTransformer) (elev : ℚ → ℚ → ℚ)
    (s : StopIn) : Option StopOut :=
  match s.coordinates with
  | none => none
  | some (lon, lat) =>
    let e := elev (round6 lat) (round6 lon)
    if s.is_external then
      some ⟨"stop_" ++ s.sid, s.name, s.type, clamp_to_map_edge tf lat lon e,
            s.is_external, s.is_underground, s.has_shelter, s.has_bench,
            s.wheelchair⟩
    else if tf.in_bounds lat lon then
      some ⟨"stop_" ++ s.sid, s.name, s.type, tf.to_cs2 lat lon e,
            s.is_external, s.is_underground, s.has_shelter, s.has_bench,
            s.wheelchair⟩
    else none

/-- Body of the route loop of CS2Converter.convert_transit, given the ids
of the stops that were emitted. -/
def convert_route (stop_id_set : List String) (r : RouteIn) : RouteOut :=
  { id := "route_" ++ r.rid
    name := r.name
    number := r.ref
    type := TRANSIT_TYPE_MAP r.route_type
    operator := r.operator
    colour := r.colour
    network := r.network
    from_loc := r.from_loc
    to_loc := r.to_loc
    is_intercity := r.is_intercity
    stops := (r.stop_ids.map (fun sid => "stop_" ++ sid)).filter
      (fun s => decide (s ∈ stop_id_set))
    fare := match r.fare with
      | some f => mergeFare (fare_defaults r.route_type) f
      | none => { fare_defaults r.route_type with source := some "default" } }

/-- Input of convert_transit. -/
structure TransitIn where
  stops : List StopIn
  routes : List RouteIn

/-- Output of convert_transit. -/
structure TransitOut where
  stops : List StopOut
  routes : List RouteOut

/-- CS2Converter.convert_transit. -/
def convert_transit (tf : CoordinateTransformer) (elev : ℚ → ℚ → ℚ)
    (data : TransitIn) : TransitOut :=
  let cs2_stops := data.stops.filterMap (convert_stop tf elev)
  let stop_id_set := cs2_stops.map StopOut.id
  ⟨cs2_stops, data.routes.map (convert_route stop_id_set)⟩

/-- Adjacent pairs of a list (the segments of a polyline). -/
def zipPairs {α : Type} (l : List α) : List (α × α) := l.zip l.tail

/-- A planar point lies inside the closed clip rectangle. -/
def inBox (v : ℚ × ℚ) : Prop := |v.1| ≤ CS2_HALF_MAP ∧ |v.2| ≤ CS2_HALF_MAP

instance (v : ℚ × ℚ) : Decidable (inBox v) :=
  inferInstanceAs (Decidable (_ ∧ _))

/-- The point of the segment p-q at parameter t. -/
def lerp (p q : ℚ × ℚ) (t : ℚ) : ℚ × ℚ :=
  (p.1 + t * (q.1 - p.1), p.2 + t * (q.2 - p.2))

/-- Shrink a parameter interval by the half-plane constraint
a + t * b <= c (a constraint triple (a, b, c)); none when infeasible. -/
def updC (iv : Option (ℚ × ℚ)) (cst : ℚ × ℚ × ℚ) : Option (ℚ × ℚ) :=
  match iv with
  | none => none
  | some (lo, hi) =>
    if cst.2.1 = 0 then
      if cst.1 ≤ cst.2.2 then some (lo, hi) else none
    else if 0 < cst.2.1 then
      some (lo, min hi ((cst.2.2 - cst.1) / cst.2.1))
    else
      some (max lo ((cst.2.2 - cst.1) / cst.2.1), hi)

/-- The four half-plane constraints of the clip rectangle for segment p-q:
x >= -half, x <= half, z >= -half, z <= half along the parametrised
segment. -/
def segConstraints (p q : ℚ × ℚ) : List (ℚ × ℚ × ℚ) :=
  [(-p.1, -(q.1 - p.1), CS2_HALF_MAP),
   (p.1, q.1 - p.1, CS2_HALF_MAP),
   (-p.2, -(q.2 - p.2), CS2_HALF_MAP),
   (p.2, q.2 - p.2, CS2_HALF_MAP)]

/-- Model of shapely segment ∩ clip box: the parametric sub-segment of p-q
inside the rectangle, or none when the intersection is empty or a single
touching point (shapely returns a Point there, which the source discards
by keeping only LineString members). -/
def clipSeg (p q : ℚ × ℚ) : Option ((ℚ × ℚ) × (ℚ × ℚ)) :=
  match (segConstraints p q).foldl updC (some (0, 1)) with
  | none => none
  | some (lo, hi) => if lo < hi then some (lerp p q lo, lerp p q hi) else none

def flushCur (cur : List (ℚ × ℚ)) : List (List (ℚ × ℚ)) :=
  if cur.isEmpty then [] else [cur]

/-- Chain the clipped pieces of consecutive segments into maximal connected
sub-polylines, the model of the LineString/MultiLineString members of
xz_line.intersection(clip_box). -/
def clipChainGo : List ((ℚ × ℚ) × (ℚ × ℚ)) → List (ℚ × ℚ) → List (List (ℚ × ℚ))
  | [], cur => flushCur cur
  | (p, q) :: rest, cur =>
    match clipSeg p q with
    | none => flushCur cur ++ clipChainGo rest []
    | some (a, b) =>
      if cur.getLast? = some a then clipChainGo rest (cur ++ [b])
      else flushCur cur ++ clipChainGo rest [a, b]

/-- The disjoint sub-polylines of a polyline clipped to the rectangle. -/
def clipLineXZ (pts : List (ℚ × ℚ)) : List (List (ℚ × ℚ)) :=
  clipChainGo (zipPairs pts) []

/-- Projection of the (lon, lat) coordinate list to (x, z, elevation)
triples (the nodes_xze list of the source; the elevation table is applied
to the 6-decimal-rounded latitude and longitude). -/
def project_nodes (tf : CoordinateTransformer) (coords : List (ℚ × ℚ))
    (elev : ℚ → ℚ → ℚ) : List (ℚ × ℚ × ℚ) :=
  coords.map fun c =>
    let p := tf.xz c.2 c.1
    (p.1, p.2, elev (round6 c.2) (round6 c.1))

def dedupGo : (ℚ × ℚ × ℚ) → List (ℚ × ℚ × ℚ) → List (ℚ × ℚ × ℚ)
  | _, [] => []
  | last, q :: rest =>
    if (q.1, q.2.1) = (last.1, last.2.1) then dedupGo last rest
    else q :: dedupGo q rest

/-- Removal of consecutive (x, z)-duplicates from the projected node list
(the deduped list of clip_and_convert_line). -/
def dedupConsec : List (ℚ × ℚ × ℚ) → List (ℚ × ℚ × ℚ)
  | [] => []
  | p :: rest => p :: dedupGo p rest

/-- The (x, z) components of a node list. -/
def xzOf (nodes : List (ℚ × ℚ × ℚ)) : List (ℚ × ℚ) :=
  nodes.map fun n => (n.1, n.2.1)

def dedupXZGo : (ℚ × ℚ) → List (ℚ × ℚ) → List (ℚ × ℚ)
  | _, [] => []
  | last, q :: rest =>
    if q = last then dedupXZGo last rest
    else q :: dedupXZGo q rest

/-- Removal of consecutive duplicates from an (x, z) list (the deduped
xz_coords of clip_and_convert_polygon). -/
def dedupXZ : List (ℚ × ℚ) → List (ℚ × ℚ)
  | [] => []
  | p :: rest => p :: dedupXZGo p rest

/-- The pre-clip interpolation candidate set used by
clip_and_convert_line (its deduped projected node list). -/
def line_candidates (tf : CoordinateTransformer) (coords : List (ℚ × ℚ))
    (elev : ℚ → ℚ → ℚ) : List (ℚ × ℚ × ℚ) :=
  dedupConsec (project_nodes tf coords elev)

/-- One output vertex: clipped coordinates and the elevation interpolated
at them from the candidate node list, rounded to 2 decimals. -/
def mkCS2 (nodes : List (ℚ × ℚ × ℚ)) (c : ℚ × ℚ) : CS2Point :=
  ⟨round2 c.1, round2 (interp_elevation c.1 c.2 nodes), round2 c.2⟩

/-- CoordinateTransformer.clip_and_convert_line.  The per-node try/except
never fires on rational inputs, so the projected list keeps the input
length; both source length guards are kept. -/
def clip_and_convert_line (tf : CoordinateTransformer)
    (coords : List (ℚ × ℚ)) (elev : ℚ → ℚ → ℚ) : List (List CS2Point) :=
  if coords.length < 2 then [] else
  let nodes_xze := project_nodes tf coords elev
  if nodes_xze.length < 2 then [] else
  let deduped := dedupConsec nodes_xze
  if deduped.length < 2 then [] else
  let subs := clipLineXZ (xzOf deduped)
  (subs.map fun sub => sub.map (mkCS2 deduped)).filter fun seg => 2 ≤ seg.length

/-- Result of shapely Polygon(xz_coords).intersection(clip_box), taken as
an oracle: empty geometry, a polygon (exterior ring and holes), a
multi-polygon, or anything else (GeometryCollection, lines, or a raised
geometry exception, all of which the source turns into None). -/
inductive PolyGeom where
  | empty : PolyGeom
  | poly : List (ℚ × ℚ) → List (List (ℚ × ℚ)) → PolyGeom
  | multi : List (List (ℚ × ℚ) × List (List (ℚ × ℚ))) → PolyGeom
  | other : PolyGeom

/-- Twice the signed shoelace sum of a ring (closed by wrapping to the
first vertex). -/
def shoelace (l : List (ℚ × ℚ)) : ℚ :=
  (zipPairs (l ++ l.take 1)).foldl
    (fun acc pq => acc + (pq.1.1 * pq.2.2 - pq.2.1 * pq.1.2)) 0

/-- Shapely ring area. -/
def ringArea (l : List (ℚ × ℚ)) : ℚ := |shoelace l| / 2

/-- Shapely polygon area: exterior area minus hole areas. -/
def polyArea (p : List (ℚ × ℚ) × List (List (ℚ × ℚ))) : ℚ :=
  ringArea p.1 - (p.2.map ringArea).sum

/-- Python max(geoms, key=lambda g: g.area): first piece of maximal area. -/
def pickLargest (h : List (ℚ × ℚ) × List (List (ℚ × ℚ)))
    (t : List (List (ℚ × ℚ) × List (List (ℚ × ℚ)))) :
    List (ℚ × ℚ) × List (List (ℚ × ℚ)) :=
  t.foldl (fun best g => if polyArea best < polyArea g then g else best) h

/-- Final polygon step: exterior-ring vertices converted with elevation
interpolation; the result only stands when it has at least 3 points. -/
def polyFinish (nodes_xze : List (ℚ × ℚ × ℚ)) (ext : List (ℚ × ℚ)) :
    Option (List CS2Point) :=
  let points := ext.map (mkCS2 nodes_xze)
  if 3 ≤ points.length then some points else none

/-- CoordinateTransformer.clip_and_convert_polygon, parametric in the
shapely intersection oracle. -/
def clip_and_convert_polygon (tf : CoordinateTransformer)
    (intersection : List (ℚ × ℚ) → PolyGeom)
    (coords : List (ℚ × ℚ)) (elev : ℚ → ℚ → ℚ) : Option (List CS2Point) :=
  if coords.length < 3 then none else
  let nodes_xze := project_nodes tf coords elev
  let xz_coords := dedupXZ (xzOf nodes_xze)
  if xz_coords.length < 3 then none else
  match intersection xz_coords with
  | PolyGeom.empty => none
  | PolyGeom.poly ext _ => polyFinish nodes_xze ext
  | PolyGeom.multi [] => none
  | PolyGeom.multi (g :: gs) => polyFinish nodes_xze (pickLargest g gs).1
  | PolyGeom.other => none

/-- All rings of an intersection result lie inside the clip rectangle
(true of any shapely intersection with the clip box). -/
def geomWithinBox : PolyGeom → Prop
  | PolyGeom.empty => True
  | PolyGeom.poly ext holes =>
      (∀ v ∈ ext, inBox v) ∧ ∀ h ∈ holes, ∀ v ∈ h, inBox v
  | PolyGeom.multi polys =>
      ∀ p ∈ polys, (∀ v ∈ p.1, inBox v) ∧ ∀ h ∈ p.2, ∀ v ∈ h, inBox v
  | PolyGeom.other => True

/-- Satisfaction of a constraint triple (a, b, c) at parameter t. -/
def csat (cst : ℚ × ℚ × ℚ) (t : ℚ) : Prop := cst.1 + t * cst.2.1 ≤ cst.2.2

/-- Concrete frame for witnesses: centre (0, 0), metres-per-degree-longitude
scale 1 (a legal value of the cosine-scaled field). -/
def tfW : CoordinateTransformer := ⟨0, 0, 1⟩

/-- Elevation table with no entries: every lookup defaults to 0. -/
def elevW : ℚ → ℚ → ℚ := fun _ _ => 0

/-- A (lon, lat) polyline crossing the map boundary exactly twice: it
projects to x = -30000, 0, 30000 at z = 0. -/
def exTwoCross : List (ℚ × ℚ) := [(-30000, 0), (0, 0), (30000, 0)]

/-- A (lon, lat) polyline crossing the boundary four times: it leaves on
the east side and comes back on a second row z = 100. -/
def exFourCross : List (ℚ × ℚ) :=
  [(-30000, 0), (0, 0), (30000, 0), (30000, -100 / 111320),
   (0, -100 / 111320), (-30000, -100 / 111320)]

/-- A (lon, lat) polyline entirely east of the map. -/
def exOutside : List (ℚ × ℚ) := [(30000, 0), (40000, 0)]

/-- A (lon, lat) triangle projecting to (0,0), (1000,0), (0,1000). -/
def coordsPW : List (ℚ × ℚ) := [(0, 0), (1000, 0), (0, -1000 / 111320)]

/-- A closed exterior ring inside the map. -/
def ringW : List (ℚ × ℚ) := [(0, 0), (1000, 0), (0, 1000), (0, 0)]

/-- Intersection oracle returning one polygon with no holes. -/
def oraclePolyW : List (ℚ × ℚ) → PolyGeom := fun _ => PolyGeom.poly ringW []

/-- Intersection oracle returning the empty geometry. -/
def oracleEmptyW : List (ℚ × ℚ) → PolyGeom := fun _ => PolyGeom.empty

/-- A small triangular piece (area 50). -/
def pieceSmallW : List (ℚ × ℚ) × List (List (ℚ × ℚ)) :=
  ([(0, 0), (10, 0), (0, 10), (0, 0)], [])

/-- A large triangular piece (area 500000). -/
def pieceBigW : List (ℚ × ℚ) × List (List (ℚ × ℚ)) :=
  ([(0, 0), (1000, 0), (0, 1000), (0, 0)], [])

/-- Intersection oracle returning a two-piece MultiPolygon. -/
def oracleMultiW : List (ℚ × ℚ) → PolyGeom :=
  fun _ => PolyGeom.multi [pieceSmallW, pieceBigW]

/-- An in-bounds, non-external stop fixture. -/
def stopW : StopIn :=
  ⟨"a", "A", "bus_stop", some (0, 0), false, false, false, false, "unknown"⟩

/-- A route fixture referencing one emitted stop and one unknown stop. -/
def routeW : RouteIn :=
  ⟨"r1", "R", "1", "bus", "Op", "", "", "", "", false, ["a", "b"], none⟩

/-- Transit input fixture. -/
def dataW : TransitIn := ⟨[stopW], [routeW]⟩

lemma distList_length (cx cz : ℚ) (nodes : List (ℚ × ℚ × ℚ)) :
    (distList cx cz nodes).length = nodes.length := by
  simp [distList]

lemma distList_key_nonneg (cx cz : ℚ) (nodes : List (ℚ × ℚ × ℚ)) :
    ∀ p ∈ distList cx cz nodes, 0 ≤ p.1 := by
  intro p hp
  rcases List.mem_map.1 hp with ⟨n, -, rfl⟩
  positivity

lemma sq_add_sq_eq_zero {a b : ℚ} (h : a ^ 2 + b ^ 2 = 0) : a = 0 ∧ b = 0 := by
  constructor <;> nlinarith [sq_nonneg a, sq_nonneg b]

/-- The sorted distance list of _interp_elevation: a permutation of the raw
distance list, sorted by its squared-distance key. -/
lemma distSorted_facts (cx cz : ℚ) (nodes : List (ℚ × ℚ × ℚ)) :
    ((distList cx cz nodes).insertionSort distLE).Perm (distList cx cz nodes) ∧
    List.Sorted distLE ((distList cx cz nodes).insertionSort distLE) :=
  ⟨List.perm_insertionSort distLE _, List.sorted_insertionSort distLE _⟩

/-- C2: elevation interpolation is inverse-distance weighting over the two
nearest candidates by squared Euclidean distance with weight 1/(d^2+1e-9);
with no candidates it returns 0, with one candidate (or nearest squared
distance 0) it returns that candidate elevation directly; querying (0,0)
with candidates [(0,0,10),(0,0,20)] returns 10, not an average. -/
theorem interp_elevation_idw :
    (∀ cx cz : ℚ, interp_elevation cx cz [] = 0) ∧
    (∀ cx cz nx nz ne : ℚ, interp_elevation cx cz [(nx, nz, ne)] = ne) ∧
    (∀ cx cz : ℚ, ∀ nodes : List (ℚ × ℚ × ℚ),
      (∃ n ∈ nodes, (cx - n.1) ^ 2 + (cz - n.2.1) ^ 2 = 0) →
      ∃ n ∈ nodes, n.1 = cx ∧ n.2.1 = cz ∧ interp_elevation cx cz nodes = n.2.2) ∧
    (∀ cx cz : ℚ, ∀ nodes : List (ℚ × ℚ × ℚ), 2 ≤ nodes.length →
      (∀ n ∈ nodes, (cx - n.1) ^ 2 + (cz - n.2.1) ^ 2 ≠ 0) →
      ∃ d1 e1 d2 e2 : ℚ, ∃ rest : List (ℚ × ℚ),
        (distList cx cz nodes).Perm ((d1, e1) :: (d2, e2) :: rest) ∧
        d1 ≤ d2 ∧ (∀ p ∈ rest, d2 ≤ p.1) ∧ 0 < d1 ∧
        interp_elevation cx cz nodes =
          (1 / (d1 + 1 / 1000000000) * e1 + 1 / (d2 + 1 / 1000000000) * e2) /
            (1 / (d1 + 1 / 1000000000) + 1 / (d2 + 1 / 1000000000))) ∧
    interp_elevation 0 0 [(0, 0, 10), (0, 0, 20)] = 10 := by
  refine ⟨fun cx cz => rfl, ?_, ?_, ?_, ?_⟩
  · intro cx cz nx nz ne
    simp [interp_elevation, distList, List.insertionSort, List.orderedInsert]
  · intro cx cz nodes ⟨n0, hn0, hd0⟩
    rcases nodes with _ | ⟨a, t⟩
    · simp at hn0
    obtain ⟨hperm, hsort⟩ := distSorted_facts cx cz (a :: t)
    cases hsL : (distList cx cz (a :: t)).insertionSort distLE with
    | nil =>
      exfalso
      have := hperm.length_eq
      rw [hsL] at this
      simp [distList_length] at this
    | cons p rest =>
      obtain ⟨d1, e1⟩ := p
      have hmem0 : ((cx - n0.1) ^ 2 + (cz - n0.2.1) ^ 2, n0.2.2) ∈
          distList cx cz (a :: t) := List.mem_map_of_mem _ hn0
      have hmem0s : ((cx - n0.1) ^ 2 + (cz - n0.2.1) ^ 2, n0.2.2) ∈
          (d1, e1) :: rest := by
        rw [← hsL]; exact hperm.mem_iff.2 hmem0
      rw [hsL] at hsort hperm
      have hd1le : d1 ≤ 0 := by
        rcases List.mem_cons.1 hmem0s with h | h
        · rw [Prod.mk.injEq] at h
          exact le_of_eq (by rw [← h.1, hd0])
        · have := (List.sorted_cons.1 hsort).1 _ h
          simpa [distLE, hd0] using this
      have hd1mem : (d1, e1) ∈ distList cx cz (a :: t) :=
        hperm.mem_iff.1 (List.mem_cons_self _ _)
      have hd1ge : 0 ≤ d1 := distList_key_nonneg cx cz (a :: t) _ hd1mem
      have hd1 : d1 = 0 := le_antisymm hd1le hd1ge
      obtain ⟨n, hn, hpair⟩ := List.mem_map.1 hd1mem
      rw [Prod.mk.injEq] at hpair
      obtain ⟨hx0, hz0⟩ := sq_add_sq_eq_zero (by rw [hpair.1, hd1])
      refine ⟨n, hn, by linarith [sub_eq_zero.1 hx0], by linarith [sub_eq_zero.1 hz0], ?_⟩
      have hval : interp_elevation cx cz (a :: t) = e1 := by
        simp only [interp_elevation]
        rw [hsL]
        simp [hd1]
      rw [hval, ← hpair.2]
  · intro cx cz nodes hlen hpos
    rcases nodes with _ | ⟨a, t⟩
    · simp at hlen
    obtain ⟨hperm, hsort⟩ := distSorted_facts cx cz (a :: t)
    cases hsL : (distList cx cz (a :: t)).insertionSort distLE with
    | nil =>
      exfalso
      have hl := hperm.length_eq
      rw [hsL, distList_length] at hl
      simp at hl
    | cons p rest0 =>
      cases rest0 with
      | nil =>
        exfalso
        have hl := hperm.length_eq
        rw [hsL, distList_length] at hl
        simp at hl hlen
        simp [hl] at hlen
      | cons q rest =>
        obtain ⟨d1, e1⟩ := p
        obtain ⟨d2, e2⟩ := q
        rw [hsL] at hsort hperm
        have hd1mem : (d1, e1) ∈ distList cx cz (a :: t) :=
          hperm.mem_iff.1 (List.mem_cons_self _ _)
        obtain ⟨n, hn, hpair⟩ := List.mem_map.1 hd1mem
        rw [Prod.mk.injEq] at hpair
        have hd1ne : d1 ≠ 0 := by
          intro h
          exact hpos n hn (by rw [hpair.1, h])
        have hd1pos : 0 < d1 :=
          lt_of_le_of_ne (distList_key_nonneg cx cz (a :: t) _ hd1mem) (Ne.symm hd1ne)
        have h12 : d1 ≤ d2 := (List.sorted_cons.1 hsort).1 _ (List.mem_cons_self _ _)
        have hrest : ∀ p ∈ rest, d2 ≤ p.1 := fun p hp =>
          (List.sorted_cons.1 (List.sorted_cons.1 hsort).2).1 _ hp
        refine ⟨d1, e1, d2, e2, rest, hperm.symm, h12, hrest, hd1pos, ?_⟩
        simp only [interp_elevation]
        rw [hsL]
        simp [hd1ne]
  · simp [interp_elevation, distList, List.insertionSort, List.orderedInsert, distLE]

/-- Witness for C2: the zero-distance short-circuit at the spec example, and
the two-nearest weighting at a query with distinct positive distances. -/
theorem interp_elevation_idw_witness :
    (∃ n ∈ ([(0, 0, 10), (0, 0, 20)] : List (ℚ × ℚ × ℚ)),
      n.1 = 0 ∧ n.2.1 = 0 ∧ interp_elevation 0 0 [(0, 0, 10), (0, 0, 20)] = n.2.2) ∧
    (∃ d1 e1 d2 e2 : ℚ, ∃ rest : List (ℚ × ℚ),
      (distList 0 0 [(1, 0, 10), (0, 2, 20)]).Perm ((d1, e1) :: (d2, e2) :: rest) ∧
      d1 ≤ d2 ∧ (∀ p ∈ rest, d2 ≤ p.1) ∧ 0 < d1 ∧
      interp_elevation 0 0 [(1, 0, 10), (0, 2, 20)] =
        (1 / (d1 + 1 / 1000000000) * e1 + 1 / (d2 + 1 / 1000000000) * e2) /
          (1 / (d1 + 1 / 1000000000) + 1 / (d2 + 1 / 1000000000))) :=
  ⟨interp_elevation_idw.2.2.1 0 0 _ ⟨(0, 0, 10), by simp, by norm_num⟩,
   interp_elevation_idw.2.2.2.1 0 0 _ (by simp)
     (by intro n hn; fin_cases hn <;> norm_num)⟩

lemma n_cells_pos {chunk_size_m : ℚ} (h : 0 < chunk_size_m) :
    1 ≤ n_cells chunk_size_m := by
  have : (0 : ℚ) < CS2_MAP_SIZE / chunk_size_m := by
    apply div_pos _ h
    norm_num [CS2_MAP_SIZE]
  exact Int.ceil_pos.2 this

lemma clamp_pyInt_eq_clamp_floor (q : ℚ) (n : ℤ) (hn : 1 ≤ n) :
    max 0 (min (pyInt q) (n - 1)) = max 0 (min ⌊q⌋ (n - 1)) := by
  unfold pyInt
  split_ifs with hq
  · have h1 : ⌈q⌉ ≤ 0 := Int.ceil_le.2 (by exact_mod_cast hq.le)
    have h2 : ⌊q⌋ ≤ ⌈q⌉ := Int.floor_le_ceil q
    omega
  · rfl

/-- C4: the grid has ceil(57344/chunk_size) cells per side; the cell of a
planar point is its clamped floor cell on each axis (Python int() truncation
agrees with floor after clamping), so every coordinate lands in exactly one
in-range cell; with chunk_size 5000 the grid is 12 x 12 and (28000, 28000)
lands in cell (11, 11). -/
theorem cell_clamped_floor (chunk_size_m : ℚ) (hpos : 0 < chunk_size_m)
    (x z : ℚ) :
    cell chunk_size_m x z =
      (max 0 (min ⌊(x + CS2_HALF_MAP) / chunk_size_m⌋ (n_cells chunk_size_m - 1)),
       max 0 (min ⌊(z + CS2_HALF_MAP) / chunk_size_m⌋ (n_cells chunk_size_m - 1))) ∧
    0 ≤ (cell chunk_size_m x z).1 ∧
    (cell chunk_size_m x z).1 ≤ n_cells chunk_size_m - 1 ∧
    0 ≤ (cell chunk_size_m x z).2 ∧
    (cell chunk_size_m x z).2 ≤ n_cells chunk_size_m - 1 ∧
    n_cells 5000 = 12 ∧
    cell 5000 28000 28000 = (11, 11) := by
  have hn := n_cells_pos hpos
  have h12 : n_cells 5000 = 12 := by
    rw [n_cells, CS2_MAP_SIZE, Int.ceil_eq_iff]
    norm_num
  refine ⟨?_, ?_, ?_, ?_, ?_, h12, ?_⟩
  · simp only [cell]
    rw [clamp_pyInt_eq_clamp_floor _ _ hn, clamp_pyInt_eq_clamp_floor _ _ hn]
  · simp only [cell]
    omega
  · simp only [cell]
    omega
  · simp only [cell]
    omega
  · simp only [cell]
    omega
  · have hcol : pyInt ((28000 + CS2_HALF_MAP) / 5000) = 11 := by
      have hq : ¬ ((28000 + CS2_HALF_MAP) / 5000 < (0 : ℚ)) := by
        norm_num [CS2_HALF_MAP, CS2_MAP_SIZE]
      simp only [pyInt, if_neg hq]
      rw [Int.floor_eq_iff]
      norm_num [CS2_HALF_MAP, CS2_MAP_SIZE]
    simp only [cell, hcol, h12]
    norm_num

/-- Witness for C4 at chunk size 5000 and point (28000, 28000). -/
theorem cell_clamped_floor_witness :
    (0 : ℚ) < 5000 ∧ n_cells 5000 = 12 ∧ cell 5000 28000 28000 = (11, 11) :=
  ⟨by norm_num, (cell_clamped_floor 5000 (by norm_num) 28000 28000).2.2.2.2.2.1,
   (cell_clamped_floor 5000 (by norm_num) 28000 28000).2.2.2.2.2.2⟩

lemma round2_within_half {q : ℚ} (h1 : -CS2_HALF_MAP ≤ q) (h2 : q ≤ CS2_HALF_MAP) :
    -CS2_HALF_MAP ≤ round2 q ∧ round2 q ≤ CS2_HALF_MAP := by
  have h1q : (-28672 : ℚ) ≤ q := by
    rw [CS2_HALF_MAP, CS2_MAP_SIZE] at h1
    linarith
  have h2q : q ≤ 28672 := by
    rw [CS2_HALF_MAP, CS2_MAP_SIZE] at h2
    linarith
  have hub : round (q * 100) ≤ 2867200 := by
    rw [round_eq]
    have hf : ⌊(2867200 : ℚ) + 1 / 2⌋ = 2867200 := by
      rw [Int.floor_eq_iff]
      norm_num
    calc ⌊q * 100 + 1 / 2⌋ ≤ ⌊(2867200 : ℚ) + 1 / 2⌋ :=
          Int.floor_le_floor (by linarith)
      _ = 2867200 := hf
  have hlb : (-2867200 : ℤ) ≤ round (q * 100) := by
    rw [round_eq]
    have hf : ⌊(-2867200 : ℚ) + 1 / 2⌋ = -2867200 := by
      rw [Int.floor_eq_iff]
      norm_num
    calc (-2867200 : ℤ) = ⌊(-2867200 : ℚ) + 1 / 2⌋ := hf.symm
      _ ≤ ⌊q * 100 + 1 / 2⌋ := Int.floor_le_floor (by linarith)
  have hubq : ((round (q * 100) : ℤ) : ℚ) ≤ 2867200 := by exact_mod_cast hub
  have hlbq : (-2867200 : ℚ) ≤ ((round (q * 100) : ℤ) : ℚ) := by exact_mod_cast hlb
  rw [round2, CS2_HALF_MAP, CS2_MAP_SIZE]
  constructor <;> [linarith; linarith]

lemma clamp_bounds (v : ℚ) :
    -CS2_HALF_MAP ≤ max (-CS2_HALF_MAP) (min CS2_HALF_MAP v) ∧
    max (-CS2_HALF_MAP) (min CS2_HALF_MAP v) ≤ CS2_HALF_MAP := by
  have hh : (0 : ℚ) ≤ CS2_HALF_MAP := by norm_num [CS2_HALF_MAP, CS2_MAP_SIZE]
  exact ⟨le_max_left _ _, max_le (by linarith) (min_le_left _ _)⟩

/-- C8: an external transit stop is emitted with position given by the
axis-wise independent clamp of its projection to [-28672, 28672] on x and
on z, hence the emitted position always lies inside the map. -/
theorem external_stop_clamped (tf : CoordinateTransformer) (elev : ℚ → ℚ → ℚ)
    (s : StopIn) (lon lat : ℚ)
    (hc : s.coordinates = some (lon, lat)) (hext : s.is_external = true) :
    ∃ out : StopOut, convert_stop tf elev s = some out ∧
      out.position = clamp_to_map_edge tf lat lon (elev (round6 lat) (round6 lon)) ∧
      out.position.x = round2 (max (-CS2_HALF_MAP) (min CS2_HALF_MAP (tf.xz lat lon).1)) ∧
      out.position.z = round2 (max (-CS2_HALF_MAP) (min CS2_HALF_MAP (tf.xz lat lon).2)) ∧
      |out.position.x| ≤ CS2_HALF_MAP ∧ |out.position.z| ≤ CS2_HALF_MAP := by
  have hstop : convert_stop tf elev s =
      some ⟨"stop_" ++ s.sid, s.name, s.type,
            clamp_to_map_edge tf lat lon (elev (round6 lat) (round6 lon)),
            s.is_external, s.is_underground, s.has_shelter, s.has_bench,
            s.wheelchair⟩ := by
    simp [convert_stop, hc, hext]
  refine ⟨_, hstop, rfl, rfl, rfl, ?_, ?_⟩
  · have hb := clamp_bounds (tf.xz lat lon).1
    have := round2_within_half hb.1 hb.2
    exact abs_le.2 ⟨this.1, this.2⟩
  · have hb := clamp_bounds (tf.xz lat lon).2
    have := round2_within_half hb.1 hb.2
    exact abs_le.2 ⟨this.1, this.2⟩

/-- Witness for C8: an external stop projected far east of the map is
pinned to the map edge. -/
theorem external_stop_clamped_witness :
    ∃ out : StopOut,
      convert_stop ⟨0, 0, 111320⟩ (fun _ _ => 0)
        ⟨"e1", "ext", "bus_stop", some (1, 0), true, false, false, false,
         "unknown"⟩ = some out ∧
      out.position = clamp_to_map_edge ⟨0, 0, 111320⟩ 0 1
        ((fun _ _ => (0 : ℚ)) (round6 0) (round6 1)) ∧
      out.position.x = round2 (max (-CS2_HALF_MAP)
        (min CS2_HALF_MAP ((CoordinateTransformer.xz ⟨0, 0, 111320⟩ 0 1).1))) ∧
      out.position.z = round2 (max (-CS2_HALF_MAP)
        (min CS2_HALF_MAP ((CoordinateTransformer.xz ⟨0, 0, 111320⟩ 0 1).2))) ∧
      |out.position.x| ≤ CS2_HALF_MAP ∧ |out.position.z| ≤ CS2_HALF_MAP :=
  external_stop_clamped ⟨0, 0, 111320⟩ (fun _ _ => 0) _ 1 0 rfl rfl

/-- C10: a non-external stop whose projection is out of bounds is silently
skipped: its conversion yields none, no record is emitted for it, and the
rest of the batch is unaffected. -/
theorem out_of_bounds_stop_skipped (tf : CoordinateTransformer)
    (elev : ℚ → ℚ → ℚ) (s : StopIn) (lon lat : ℚ)
    (pre post : List StopIn) (routes : List RouteIn)
    (hc : s.coordinates = some (lon, lat)) (hext : s.is_external = false)
    (hob : tf.in_bounds lat lon = false) :
    convert_stop tf elev s = none ∧
    (convert_transit tf elev ⟨pre ++ s :: post, routes⟩).stops =
      (convert_transit tf elev ⟨pre ++ post, routes⟩).stops := by
  have hnone : convert_stop tf elev s = none := by
    simp [convert_stop, hc, hext, hob]
  refine ⟨hnone, ?_⟩
  simp [convert_transit, List.filterMap_append, List.filterMap_cons, hnone]

/-- Witness for C10: a non-external stop projected far east of the map is
dropped while its neighbours are kept. -/
theorem out_of_bounds_stop_skipped_witness :
    convert_stop ⟨0, 0, 111320⟩ (fun _ _ => 0)
      ⟨"o1", "out", "bus_stop", some (1, 0), false, false, false, false,
       "unknown"⟩ = none ∧
    (convert_transit ⟨0, 0, 111320⟩ (fun _ _ => 0)
      ⟨[⟨"o1", "out", "bus_stop", some (1, 0), false, false, false, false,
         "unknown"⟩], []⟩).stops =
      (convert_transit ⟨0, 0, 111320⟩ (fun _ _ => 0) ⟨[], []⟩).stops := by
  have hob : CoordinateTransformer.in_bounds ⟨0, 0, 111320⟩ 0 1 = false := by
    simp [CoordinateTransformer.in_bounds, CoordinateTransformer.xz, m_per_lat]
    norm_num [CS2_HALF_MAP, CS2_MAP_SIZE]
  have h := out_of_bounds_stop_skipped ⟨0, 0, 111320⟩ (fun _ _ => 0)
    ⟨"o1", "out", "bus_stop", some (1, 0), false, false, false, false,
     "unknown"⟩ 1 0 [] [] [] rfl rfl hob
  exact h

/-- C9: convert_transit emits one route record per input route (even when no
stop reference survives), and the stop list of each emitted route consists
of exactly the references that resolve to an emitted stop, in their
original order (a sublist of the reference list). -/
theorem routes_keep_resolved_stops (tf : CoordinateTransformer)
    (elev : ℚ → ℚ → ℚ) (data : TransitIn) :
    (convert_transit tf elev data).routes.length = data.routes.length ∧
    ∀ r ∈ data.routes, ∃ ro ∈ (convert_transit tf elev data).routes,
      ro.id = "route_" ++ r.rid ∧
      ro.stops.Sublist (r.stop_ids.map (fun sid => "stop_" ++ sid)) ∧
      ∀ s : String, s ∈ ro.stops ↔
        (s ∈ r.stop_ids.map (fun sid => "stop_" ++ sid) ∧
         s ∈ (convert_transit tf elev data).stops.map StopOut.id) := by
  constructor
  · simp [convert_transit]
  · intro r hr
    refine ⟨convert_route
      ((data.stops.filterMap (convert_stop tf elev)).map StopOut.id) r,
      ?_, rfl, ?_, ?_⟩
    · simp only [convert_transit]
      exact List.mem_map_of_mem _ hr
    · exact List.filter_sublist _
    · intro s
      simp [convert_route, List.mem_filter, convert_transit]

lemma updC_sound {iv : Option (ℚ × ℚ)} {cst : ℚ × ℚ × ℚ} {lo' hi' : ℚ}
    (h : updC iv cst = some (lo', hi')) :
    ∃ lo hi, iv = some (lo, hi) ∧ lo ≤ lo' ∧ hi' ≤ hi ∧
      ∀ t, lo' ≤ t → t ≤ hi' → csat cst t := by
  match iv with
  | none => simp [updC] at h
  | some (lo, hi) =>
    refine ⟨lo, hi, rfl, ?_⟩
    rw [updC] at h
    by_cases hb0 : cst.2.1 = 0
    · rw [if_pos hb0] at h
      by_cases hba : cst.1 ≤ cst.2.2
      · rw [if_pos hba, Option.some.injEq, Prod.mk.injEq] at h
        obtain ⟨h1, h2⟩ := h
        subst h1; subst h2
        exact ⟨le_refl _, le_refl _, fun t _ _ => by simp [csat, hb0, hba]⟩
      · rw [if_neg hba] at h
        exact absurd h (by simp)
    · rw [if_neg hb0] at h
      by_cases hbpos : 0 < cst.2.1
      · rw [if_pos hbpos, Option.some.injEq, Prod.mk.injEq] at h
        obtain ⟨h1, h2⟩ := h
        subst h1; subst h2
        refine ⟨le_refl _, min_le_left _ _, fun t _ ht2 => ?_⟩
        have htc : t ≤ (cst.2.2 - cst.1) / cst.2.1 :=
          le_trans ht2 (min_le_right _ _)
        rw [le_div_iff₀ hbpos] at htc
        simp only [csat]
        linarith
      · have hbneg : cst.2.1 < 0 := lt_of_le_of_ne (not_lt.1 hbpos) hb0
        rw [if_neg hbpos, Option.some.injEq, Prod.mk.injEq] at h
        obtain ⟨h1, h2⟩ := h
        subst h1; subst h2
        refine ⟨le_max_left _ _, le_refl _, fun t ht1 _ => ?_⟩
        have htc : (cst.2.2 - cst.1) / cst.2.1 ≤ t :=
          le_trans (le_max_right _ _) ht1
        rw [div_le_iff_of_neg hbneg] at htc
        simp only [csat]
        linarith

lemma foldl_updC_sound :
    ∀ (csts : List (ℚ × ℚ × ℚ)) (iv : Option (ℚ × ℚ)) (lo' hi' : ℚ),
      csts.foldl updC iv = some (lo', hi') →
      ∃ lo hi, iv = some (lo, hi) ∧ lo ≤ lo' ∧ hi' ≤ hi ∧
        ∀ cst ∈ csts, ∀ t, lo' ≤ t → t ≤ hi' → csat cst t := by
  intro csts
  induction csts with
  | nil =>
    intro iv lo' hi' h
    exact ⟨lo', hi', h, le_refl _, le_refl _, by simp⟩
  | cons c cs ih =>
    intro iv lo' hi' h
    rw [List.foldl_cons] at h
    obtain ⟨lo1, hi1, hiv1, hlo1, hhi1, hcs⟩ := ih (updC iv c) lo' hi' h
    obtain ⟨lo, hi, hiv, hlo, hhi, hc⟩ := updC_sound hiv1
    refine ⟨lo, hi, hiv, le_trans hlo hlo1, le_trans hhi1 hhi, ?_⟩
    intro cst hcst t ht1 ht2
    rcases List.mem_cons.1 hcst with rfl | hmem
    · exact hc t (le_trans hlo1 ht1) (le_trans ht2 hhi1)
    · exact hcs cst hmem t ht1 ht2

lemma csat_all_inBox {p q : ℚ × ℚ} {t : ℚ}
    (h1 : csat (-p.1, -(q.1 - p.1), CS2_HALF_MAP) t)
    (h2 : csat (p.1, q.1 - p.1, CS2_HALF_MAP) t)
    (h3 : csat (-p.2, -(q.2 - p.2), CS2_HALF_MAP) t)
    (h4 : csat (p.2, q.2 - p.2, CS2_HALF_MAP) t) :
    inBox (lerp p q t) := by
  simp only [csat] at h1 h2 h3 h4
  constructor
  · show |p.1 + t * (q.1 - p.1)| ≤ CS2_HALF_MAP
    exact abs_le.2 ⟨by linarith, by linarith⟩
  · show |p.2 + t * (q.2 - p.2)| ≤ CS2_HALF_MAP
    exact abs_le.2 ⟨by linarith, by linarith⟩

/-- Soundness of the segment clipper: a returned sub-segment comes from a
parameter interval inside [0, 1] and both endpoints lie in the box. -/
lemma clipSeg_sound {p q a b : ℚ × ℚ} (h : clipSeg p q = some (a, b)) :
    ∃ lo hi : ℚ, 0 ≤ lo ∧ lo < hi ∧ hi ≤ 1 ∧
      a = lerp p q lo ∧ b = lerp p q hi ∧ inBox a ∧ inBox b := by
  rw [clipSeg] at h
  cases hfold : (segConstraints p q).foldl updC (some (0, 1)) with
  | none => rw [hfold] at h; simp at h
  | some iv =>
    obtain ⟨lo, hi⟩ := iv
    rw [hfold] at h
    dsimp only at h
    by_cases hlt : lo < hi
    · rw [if_pos hlt, Option.some.injEq, Prod.mk.injEq] at h
      obtain ⟨ha, hb⟩ := h
      obtain ⟨lo0, hi0, hiv0, hlo0, hhi0, hsat⟩ := foldl_updC_sound _ _ _ _ hfold
      rw [Option.some.injEq, Prod.mk.injEq] at hiv0
      have h0lo : 0 ≤ lo := hiv0.1 ▸ hlo0
      have hhi1 : hi ≤ 1 := hiv0.2 ▸ hhi0
      have hsat4 : ∀ t, lo ≤ t → t ≤ hi → inBox (lerp p q t) := by
        intro t ht1 ht2
        have c1 := hsat (-p.1, -(q.1 - p.1), CS2_HALF_MAP)
          (by simp [segConstraints]) t ht1 ht2
        have c2 := hsat (p.1, q.1 - p.1, CS2_HALF_MAP)
          (by simp [segConstraints]) t ht1 ht2
        have c3 := hsat (-p.2, -(q.2 - p.2), CS2_HALF_MAP)
          (by simp [segConstraints]) t ht1 ht2
        have c4 := hsat (p.2, q.2 - p.2, CS2_HALF_MAP)
          (by simp [segConstraints]) t ht1 ht2
        exact csat_all_inBox c1 c2 c3 c4
      exact ⟨lo, hi, h0lo, hlt, hhi1, ha.symm, hb.symm,
        ha ▸ hsat4 lo (le_refl _) hlt.le,
        hb ▸ hsat4 hi hlt.le (le_refl _)⟩
    · rw [if_neg hlt] at h
      exact absurd h (by simp)

lemma clipSeg_inBox {p q a b : ℚ × ℚ} (h : clipSeg p q = some (a, b)) :
    inBox a ∧ inBox b := by
  obtain ⟨lo, hi, _, _, _, _, _, hA, hB⟩ := clipSeg_sound h
  exact ⟨hA, hB⟩

lemma opt_none_eq_some {α : Type} (x : α) : (none = some x) ↔ False :=
  ⟨fun h => Option.noConfusion h, False.elim⟩

lemma flushCur_eq {cur sub : List (ℚ × ℚ)} (h : sub ∈ flushCur cur) :
    sub = cur ∧ cur ≠ [] := by
  rw [flushCur] at h
  split_ifs at h with he
  · simp at h
  · simp at h
    exact ⟨h, by simpa using he⟩

lemma getLast?_ne_nil {α : Type} {l : List α} {a : α}
    (h : l.getLast? = some a) : l ≠ [] := by
  intro he
  subst he
  simp at h

lemma clipChainGo_inBox :
    ∀ (pairs : List ((ℚ × ℚ) × (ℚ × ℚ))) (cur : List (ℚ × ℚ)),
      (∀ v ∈ cur, inBox v) →
      ∀ sub ∈ clipChainGo pairs cur, ∀ v ∈ sub, inBox v := by
  intro pairs
  induction pairs with
  | nil =>
    intro cur hcur sub hsub v hv
    rw [clipChainGo] at hsub
    exact hcur v ((flushCur_eq hsub).1 ▸ hv)
  | cons pq rest ih =>
    intro cur hcur sub hsub v hv
    obtain ⟨p, q⟩ := pq
    rw [clipChainGo] at hsub
    cases hclip : clipSeg p q with
    | none =>
      rw [hclip] at hsub
      rcases List.mem_append.1 hsub with hL | hR
      · exact hcur v ((flushCur_eq hL).1 ▸ hv)
      · exact ih [] (by simp) sub hR v hv
    | some ab =>
      obtain ⟨a, b2⟩ := ab
      rw [hclip] at hsub
      have hab := clipSeg_inBox hclip
      dsimp only at hsub
      by_cases hlast : cur.getLast? = some a
      · rw [if_pos hlast] at hsub
        refine ih (cur ++ [b2]) ?_ sub hsub v hv
        intro w hw
        rcases List.mem_append.1 hw with h | h
        · exact hcur w h
        · simp at h
          exact h ▸ hab.2
      · rw [if_neg hlast] at hsub
        rcases List.mem_append.1 hsub with hL | hR
        · exact hcur v ((flushCur_eq hL).1 ▸ hv)
        · refine ih [a, b2] ?_ sub hR v hv
          intro w hw
          rcases List.mem_cons.1 hw with h | h
          · exact h ▸ hab.1
          · simp at h
            exact h ▸ hab.2

lemma clipChainGo_two_le :
    ∀ (pairs : List ((ℚ × ℚ) × (ℚ × ℚ))) (cur : List (ℚ × ℚ)),
      (cur = [] ∨ 2 ≤ cur.length) →
      ∀ sub ∈ clipChainGo pairs cur, 2 ≤ sub.length := by
  intro pairs
  induction pairs with
  | nil =>
    intro cur hcur sub hsub
    rw [clipChainGo] at hsub
    obtain ⟨rfl, hne⟩ := flushCur_eq hsub
    rcases hcur with h | h
    · exact absurd h hne
    · exact h
  | cons pq rest ih =>
    intro cur hcur sub hsub
    obtain ⟨p, q⟩ := pq
    rw [clipChainGo] at hsub
    cases hclip : clipSeg p q with
    | none =>
      rw [hclip] at hsub
      rcases List.mem_append.1 hsub with hL | hR
      · obtain ⟨rfl, hne⟩ := flushCur_eq hL
        rcases hcur with h | h
        · exact absurd h hne
        · exact h
      · exact ih [] (Or.inl rfl) sub hR
    | some ab =>
      obtain ⟨a, b2⟩ := ab
      rw [hclip] at hsub
      dsimp only at hsub
      by_cases hlast : cur.getLast? = some a
      · rw [if_pos hlast] at hsub
        have hne := getLast?_ne_nil hlast
        rcases hcur with h | h
        · exact absurd h hne
        · refine ih (cur ++ [b2]) (Or.inr ?_) sub hsub
          rw [List.length_append]
          omega
      · rw [if_neg hlast] at hsub
        rcases List.mem_append.1 hsub with hL | hR
        · obtain ⟨rfl, hne⟩ := flushCur_eq hL
          rcases hcur with h | h
          · exact absurd h hne
          · exact h
        · exact ih [a, b2] (Or.inr (by simp)) sub hR

lemma clipChainGo_all_none :
    ∀ (pairs : List ((ℚ × ℚ) × (ℚ × ℚ))),
      (∀ pq ∈ pairs, clipSeg pq.1 pq.2 = none) →
      clipChainGo pairs [] = [] := by
  intro pairs
  induction pairs with
  | nil => intro _; rfl
  | cons pq rest ih =>
    intro h
    obtain ⟨p, q⟩ := pq
    rw [clipChainGo, h (p, q) (List.mem_cons_self _ _)]
    dsimp only
    rw [flushCur]
    simp only [List.isEmpty_nil, if_true, List.nil_append]
    exact ih fun pq hpq => h pq (List.mem_cons_of_mem _ hpq)

lemma xzOf_cons (n : ℚ × ℚ × ℚ) (l : List (ℚ × ℚ × ℚ)) :
    xzOf (n :: l) = (n.1, n.2.1) :: xzOf l := rfl

lemma dedupGo_xz (l : List (ℚ × ℚ × ℚ)) :
    ∀ last : ℚ × ℚ × ℚ,
      xzOf (dedupGo last l) = dedupXZGo (last.1, last.2.1) (xzOf l) := by
  induction l with
  | nil => intro last; rfl
  | cons q rest ih =>
    intro last
    rw [dedupGo, xzOf_cons, dedupXZGo]
    by_cases h : (q.1, q.2.1) = (last.1, last.2.1)
    · rw [if_pos h, if_pos h]
      exact ih last
    · rw [if_neg h, if_neg h, xzOf_cons, ih q]

lemma xzOf_dedupConsec (l : List (ℚ × ℚ × ℚ)) :
    xzOf (dedupConsec l) = dedupXZ (xzOf l) := by
  cases l with
  | nil => rfl
  | cons p rest =>
    rw [dedupConsec, xzOf_cons, dedupGo_xz, xzOf_cons, dedupXZ]

lemma zipPairs_cons₂ {α : Type} (x y : α) (t : List α) :
    zipPairs (x :: y :: t) = (x, y) :: zipPairs (y :: t) := rfl

lemma zipPairs_dedupXZGo :
    ∀ (l : List (ℚ × ℚ)) (last a b : ℚ × ℚ),
      (a, b) ∈ zipPairs (last :: dedupXZGo last l) →
      (a, b) ∈ zipPairs (last :: l) := by
  intro l
  induction l with
  | nil =>
    intro last a b h
    rw [dedupXZGo] at h
    exact absurd h (by simp [zipPairs])
  | cons q rest ih =>
    intro last a b h
    rw [dedupXZGo] at h
    by_cases hq : q = last
    · rw [if_pos hq] at h
      have hm := ih last a b h
      subst hq
      rw [zipPairs_cons₂]
      exact List.mem_cons_of_mem _ hm
    · rw [if_neg hq] at h
      rw [zipPairs_cons₂] at h
      rw [zipPairs_cons₂]
      rcases List.mem_cons.1 h with he | hm
      · exact List.mem_cons.2 (Or.inl he)
      · exact List.mem_cons.2 (Or.inr (ih q a b hm))

lemma zipPairs_dedupXZ {l : List (ℚ × ℚ)} {a b : ℚ × ℚ}
    (h : (a, b) ∈ zipPairs (dedupXZ l)) : (a, b) ∈ zipPairs l := by
  cases l with
  | nil =>
    rw [dedupXZ] at h
    exact absurd h (by simp [zipPairs])
  | cons p rest =>
    rw [dedupXZ] at h
    exact zipPairs_dedupXZGo rest p a b h

lemma dedupGo_length_le (l : List (ℚ × ℚ × ℚ)) :
    ∀ last, (dedupGo last l).length ≤ l.length := by
  induction l with
  | nil => intro last; simp [dedupGo]
  | cons q rest ih =>
    intro last
    rw [dedupGo]
    split_ifs
    · exact le_trans (ih last) (by simp)
    · simpa using ih q

lemma dedupConsec_length_le (l : List (ℚ × ℚ × ℚ)) :
    (dedupConsec l).length ≤ l.length := by
  cases l with
  | nil => simp [dedupConsec]
  | cons p rest =>
    rw [dedupConsec]
    simpa using dedupGo_length_le rest p

lemma mkCS2_within {nodes : List (ℚ × ℚ × ℚ)} {c : ℚ × ℚ} (h : inBox c) :
    |(mkCS2 nodes c).x| ≤ CS2_HALF_MAP ∧ |(mkCS2 nodes c).z| ≤ CS2_HALF_MAP := by
  obtain ⟨h1, h2⟩ := h
  constructor
  · show |round2 c.1| ≤ CS2_HALF_MAP
    exact abs_le.2 (round2_within_half (abs_le.1 h1).1 (abs_le.1 h1).2)
  · show |round2 c.2| ≤ CS2_HALF_MAP
    exact abs_le.2 (round2_within_half (abs_le.1 h2).1 (abs_le.1 h2).2)

lemma pickLargest_cons (h g : List (ℚ × ℚ) × List (List (ℚ × ℚ)))
    (gs : List (List (ℚ × ℚ) × List (List (ℚ × ℚ)))) :
    pickLargest h (g :: gs) =
      pickLargest (if polyArea h < polyArea g then g else h) gs := rfl

lemma pickLargest_spec :
    ∀ (t : List (List (ℚ × ℚ) × List (List (ℚ × ℚ))))
      (h : List (ℚ × ℚ) × List (List (ℚ × ℚ))),
      pickLargest h t ∈ h :: t ∧
      ∀ g ∈ h :: t, polyArea g ≤ polyArea (pickLargest h t) := by
  intro t
  induction t with
  | nil =>
    intro h
    constructor
    · simp [pickLargest]
    · intro g hg
      simp [pickLargest] at hg ⊢
      rw [hg]
  | cons g gs ih =>
    intro h
    rw [pickLargest_cons]
    by_cases hlt : polyArea h < polyArea g
    · rw [if_pos hlt]
      obtain ⟨hm, hle⟩ := ih g
      constructor
      · rcases List.mem_cons.1 hm with he | hmem
        · rw [he]
          exact List.mem_cons.2 (Or.inr (List.mem_cons_self _ _))
        · exact List.mem_cons.2 (Or.inr (List.mem_cons_of_mem _ hmem))
      · intro x hx
        rcases List.mem_cons.1 hx with he | hmem
        · rw [he]
          exact le_trans hlt.le (hle g (List.mem_cons_self _ _))
        · exact hle x hmem
    · rw [if_neg hlt]
      obtain ⟨hm, hle⟩ := ih h
      constructor
      · rcases List.mem_cons.1 hm with he | hmem
        · rw [he]
          exact List.mem_cons_self _ _
        · exact List.mem_cons.2 (Or.inr (List.mem_cons_of_mem _ hmem))
      · intro x hx
        rcases List.mem_cons.1 hx with he | hx2
        · rw [he]
          exact hle h (List.mem_cons_self _ _)
        · rcases List.mem_cons.1 hx2 with he | hmem
          · rw [he]
            exact le_trans (not_lt.1 hlt) (hle h (List.mem_cons_self _ _))
          · exact hle x (List.mem_cons_of_mem _ hmem)

/-- C1: every point of every segment returned by clip_and_convert_line and
every point of the ring returned by clip_and_convert_polygon lies within
the fixed map rectangle, |x| <= 28672 and |z| <= 28672 (for polygons under
the hypothesis that the geometry engine returned an intersection lying
inside the clip rectangle, which is what intersecting with the clip box
guarantees). -/
theorem clip_points_within_map :
    (∀ (tf : CoordinateTransformer) (coords : List (ℚ × ℚ)) (elev : ℚ → ℚ → ℚ),
      ∀ seg ∈ clip_and_convert_line tf coords elev, ∀ pt ∈ seg,
        |pt.x| ≤ CS2_HALF_MAP ∧ |pt.z| ≤ CS2_HALF_MAP) ∧
    (∀ (tf : CoordinateTransformer) (intersection : List (ℚ × ℚ) → PolyGeom)
        (coords : List (ℚ × ℚ)) (elev : ℚ → ℚ → ℚ),
      geomWithinBox (intersection (dedupXZ (xzOf (project_nodes tf coords elev)))) →
      ∀ ps, clip_and_convert_polygon tf intersection coords elev = some ps →
        ∀ pt ∈ ps, |pt.x| ≤ CS2_HALF_MAP ∧ |pt.z| ≤ CS2_HALF_MAP) := by
  constructor
  · intro tf coords elev seg hseg pt hpt
    simp only [clip_and_convert_line] at hseg
    split_ifs at hseg with h1 h2 h3
    all_goals try exact absurd hseg (List.not_mem_nil _)
    · have hseg2 := List.mem_of_mem_filter hseg
      obtain ⟨sub, hsub, rfl⟩ := List.mem_map.1 hseg2
      obtain ⟨c, hc, rfl⟩ := List.mem_map.1 hpt
      rw [clipLineXZ] at hsub
      exact mkCS2_within (clipChainGo_inBox _ [] (by simp) sub hsub c hc)
  · intro tf intersection coords elev hgeom ps hps pt hpt
    simp only [clip_and_convert_polygon] at hps
    split_ifs at hps with h1 h2
    cases hint : intersection (dedupXZ (xzOf (project_nodes tf coords elev))) with
      | empty =>
        rw [hint] at hps
        exact absurd hps (by simp)
      | other =>
        rw [hint] at hps
        exact absurd hps (by simp)
      | poly ext holes =>
        rw [hint] at hps
        rw [hint] at hgeom
        simp only [geomWithinBox] at hgeom
        dsimp only at hps
        simp only [polyFinish] at hps
        split_ifs at hps with hlen
        rw [Option.some.injEq] at hps
        subst hps
        obtain ⟨c, hc, rfl⟩ := List.mem_map.1 hpt
        exact mkCS2_within (hgeom.1 c hc)
      | multi polys =>
        cases polys with
        | nil =>
          rw [hint] at hps
          exact absurd hps (by simp)
        | cons g gs =>
          rw [hint] at hps
          rw [hint] at hgeom
          simp only [geomWithinBox] at hgeom
          dsimp only at hps
          obtain ⟨hm, -⟩ := pickLargest_spec gs g
          have hext := (hgeom _ hm).1
          simp only [polyFinish] at hps
          split_ifs at hps with hlen
          rw [Option.some.injEq] at hps
          subst hps
          obtain ⟨c, hc, rfl⟩ := List.mem_map.1 hpt
          exact mkCS2_within (hext c hc)

/-- C6: the elevation of every output vertex, including vertices introduced
by clipping at the boundary, is computed by interp_elevation at the vertex
coordinates against the pre-clip candidate set (the deduplicated projected
nodes for lines, the full projected node list for polygons), with no
special-casing of boundary-introduced vertices. -/
theorem elevation_from_preclip_candidates :
    (∀ (tf : CoordinateTransformer) (coords : List (ℚ × ℚ)) (elev : ℚ → ℚ → ℚ),
      ∀ seg ∈ clip_and_convert_line tf coords elev, ∀ pt ∈ seg,
        ∃ c : ℚ × ℚ, pt =
          ⟨round2 c.1,
           round2 (interp_elevation c.1 c.2 (line_candidates tf coords elev)),
           round2 c.2⟩) ∧
    (∀ (tf : CoordinateTransformer) (intersection : List (ℚ × ℚ) → PolyGeom)
        (coords : List (ℚ × ℚ)) (elev : ℚ → ℚ → ℚ) (ps : List CS2Point),
      clip_and_convert_polygon tf intersection coords elev = some ps →
      ∀ pt ∈ ps, ∃ c : ℚ × ℚ, pt =
        ⟨round2 c.1,
         round2 (interp_elevation c.1 c.2 (project_nodes tf coords elev)),
         round2 c.2⟩) := by
  constructor
  · intro tf coords elev seg hseg pt hpt
    simp only [clip_and_convert_line] at hseg
    split_ifs at hseg with h1 h2 h3
    all_goals try exact absurd hseg (List.not_mem_nil _)
    · have hseg2 := List.mem_of_mem_filter hseg
      obtain ⟨sub, hsub, rfl⟩ := List.mem_map.1 hseg2
      obtain ⟨c, hc, rfl⟩ := List.mem_map.1 hpt
      exact ⟨c, rfl⟩
  · intro tf intersection coords elev ps hps pt hpt
    simp only [clip_and_convert_polygon] at hps
    split_ifs at hps with h1 h2
    cases hint : intersection (dedupXZ (xzOf (project_nodes tf coords elev))) with
      | empty =>
        rw [hint] at hps
        exact absurd hps (by simp)
      | other =>
        rw [hint] at hps
        exact absurd hps (by simp)
      | poly ext holes =>
        rw [hint] at hps
        dsimp only at hps
        simp only [polyFinish] at hps
        split_ifs at hps with hlen
        rw [Option.some.injEq] at hps
        subst hps
        obtain ⟨c, hc, rfl⟩ := List.mem_map.1 hpt
        exact ⟨c, rfl⟩
      | multi polys =>
        cases polys with
        | nil =>
          rw [hint] at hps
          exact absurd hps (by simp)
        | cons g gs =>
          rw [hint] at hps
          dsimp only at hps
          simp only [polyFinish] at hps
          split_ifs at hps with hlen
          rw [Option.some.injEq] at hps
          subst hps
          obtain ⟨c, hc, rfl⟩ := List.mem_map.1 hpt
          exact ⟨c, rfl⟩

/-- C7: when the polygon intersection consists of several disjoint pieces
(a MultiPolygon), clip_and_convert_polygon keeps only a piece of maximal
area and its result is built from that piece exterior ring only, so
holes are not preserved. -/
theorem polygon_keeps_largest_piece (tf : CoordinateTransformer)
    (intersection : List (ℚ × ℚ) → PolyGeom) (coords : List (ℚ × ℚ))
    (elev : ℚ → ℚ → ℚ)
    (g : List (ℚ × ℚ) × List (List (ℚ × ℚ)))
    (gs : List (List (ℚ × ℚ) × List (List (ℚ × ℚ))))
    (h3 : ¬coords.length < 3)
    (hxz : ¬(dedupXZ (xzOf (project_nodes tf coords elev))).length < 3)
    (hint : intersection (dedupXZ (xzOf (project_nodes tf coords elev))) =
      PolyGeom.multi (g :: gs)) :
    ∃ p ∈ g :: gs, (∀ q ∈ g :: gs, polyArea q ≤ polyArea p) ∧
      clip_and_convert_polygon tf intersection coords elev =
        polyFinish (project_nodes tf coords elev) p.1 := by
  obtain ⟨hm, hle⟩ := pickLargest_spec gs g
  refine ⟨pickLargest g gs, hm, hle, ?_⟩
  simp only [clip_and_convert_polygon, if_neg h3, if_neg hxz, hint]

/-- C5: a polyline whose projected geometry lies entirely outside the map
rectangle yields the empty list (not an error); a polygon whose
intersection with the rectangle is empty yields the sentinel none; and
clip_and_convert_polygon never returns an empty (or sub-3-point) point
list. -/
theorem entirely_outside_results :
    (∀ (tf : CoordinateTransformer) (coords : List (ℚ × ℚ)) (elev : ℚ → ℚ → ℚ),
      (∀ pq ∈ zipPairs (xzOf (project_nodes tf coords elev)),
        ∀ t : ℚ, 0 ≤ t → t ≤ 1 → ¬inBox (lerp pq.1 pq.2 t)) →
      clip_and_convert_line tf coords elev = []) ∧
    (∀ (tf : CoordinateTransformer) (intersection : List (ℚ × ℚ) → PolyGeom)
        (coords : List (ℚ × ℚ)) (elev : ℚ → ℚ → ℚ),
      intersection (dedupXZ (xzOf (project_nodes tf coords elev))) =
        PolyGeom.empty →
      clip_and_convert_polygon tf intersection coords elev = none) ∧
    (∀ (tf : CoordinateTransformer) (intersection : List (ℚ × ℚ) → PolyGeom)
        (coords : List (ℚ × ℚ)) (elev : ℚ → ℚ → ℚ) (ps : List CS2Point),
      clip_and_convert_polygon tf intersection coords elev = some ps →
      3 ≤ ps.length) := by
  refine ⟨?_, ?_, ?_⟩
  · intro tf coords elev hout
    simp only [clip_and_convert_line]
    split_ifs with h1 h2 h3
    · rfl
    · rfl
    · rfl
    · have hnone : ∀ pq ∈ zipPairs (xzOf (dedupConsec (project_nodes tf coords elev))),
          clipSeg pq.1 pq.2 = none := by
        intro pq hpq
        obtain ⟨p0, q0⟩ := pq
        have hpq2 : (p0, q0) ∈ zipPairs (xzOf (project_nodes tf coords elev)) := by
          rw [xzOf_dedupConsec] at hpq
          exact zipPairs_dedupXZ hpq
        cases hcs : clipSeg p0 q0 with
        | none => rfl
        | some ab =>
          obtain ⟨a, b⟩ := ab
          obtain ⟨lo, hi, h0, hlt, hle1, ha, hb, hA, hB⟩ := clipSeg_sound hcs
          exact absurd (ha ▸ hA)
            (hout (p0, q0) hpq2 lo h0 (le_trans hlt.le hle1))
      rw [clipLineXZ, clipChainGo_all_none _ hnone]
      simp
  · intro tf intersection coords elev hint
    simp only [clip_and_convert_polygon]
    split_ifs with h1 h2
    · rfl
    · rfl
    · rw [hint]
  · intro tf intersection coords elev ps hps
    simp only [clip_and_convert_polygon] at hps
    split_ifs at hps with h1 h2
    cases hint : intersection (dedupXZ (xzOf (project_nodes tf coords elev))) with
    | empty =>
      rw [hint] at hps
      exact absurd hps (by simp)
    | other =>
      rw [hint] at hps
      exact absurd hps (by simp)
    | poly ext holes =>
      rw [hint] at hps
      dsimp only at hps
      simp only [polyFinish] at hps
      split_ifs at hps with hlen
      rw [Option.some.injEq] at hps
      subst hps
      exact hlen
    | multi polys =>
      cases polys with
      | nil =>
        rw [hint] at hps
        exact absurd hps (by simp)
      | cons g gs =>
        rw [hint] at hps
        dsimp only at hps
        simp only [polyFinish] at hps
        split_ifs at hps with hlen
        rw [Option.some.injEq] at hps
        subst hps
        exact hlen

/-- C3: every sub-polyline of the clipped intersection becomes exactly one
output segment (the under-2-point filter never discards a chained
sub-polyline, so output count equals sub-polyline count), every emitted
segment has at least 2 points, and concretely a polyline crossing the
boundary exactly twice yields one segment while one crossing four times
yields two. -/
theorem line_one_segment_per_subpolyline :
    (∀ (tf : CoordinateTransformer) (coords : List (ℚ × ℚ)) (elev : ℚ → ℚ → ℚ),
      ∀ seg ∈ clip_and_convert_line tf coords elev, 2 ≤ seg.length) ∧
    (∀ (tf : CoordinateTransformer) (coords : List (ℚ × ℚ)) (elev : ℚ → ℚ → ℚ),
      2 ≤ (line_candidates tf coords elev).length →
      (clip_and_convert_line tf coords elev).length =
        (clipLineXZ (xzOf (line_candidates tf coords elev))).length) ∧
    (clip_and_convert_line tfW exTwoCross elevW).length = 1 ∧
    (clip_and_convert_line tfW exFourCross elevW).length = 2 := by
  refine ⟨?_, ?_, ?_, ?_⟩
  · intro tf coords elev seg hseg
    simp only [clip_and_convert_line] at hseg
    split_ifs at hseg with h1 h2 h3
    all_goals try exact absurd hseg (List.not_mem_nil _)
    simpa using List.of_mem_filter hseg
  · intro tf coords elev hlen
    simp only [line_candidates] at hlen
    have hproj : (project_nodes tf coords elev).length = coords.length := by
      simp [project_nodes]
    have hded := dedupConsec_length_le (project_nodes tf coords elev)
    have h3 : ¬(dedupConsec (project_nodes tf coords elev)).length < 2 := by
      omega
    have h2 : ¬(project_nodes tf coords elev).length < 2 := by omega
    have h1 : ¬coords.length < 2 := by omega
    simp only [clip_and_convert_line, line_candidates, if_neg h1, if_neg h2,
      if_neg h3]
    have hsubs : ∀ sub ∈ clipLineXZ (xzOf (dedupConsec (project_nodes tf coords elev))),
        2 ≤ sub.length := by
      intro sub hsub
      rw [clipLineXZ] at hsub
      exact clipChainGo_two_le _ [] (Or.inl rfl) sub hsub
    rw [List.filter_eq_self.2, List.length_map]
    intro seg hseg
    obtain ⟨sub, hsub, rfl⟩ := List.mem_map.1 hseg
    simpa using hsubs sub hsub
  · norm_num [clip_and_convert_line, project_nodes, CoordinateTransformer.xz,
      m_per_lat, tfW, elevW, exTwoCross, dedupConsec, dedupGo, xzOf,
      clipLineXZ, zipPairs, clipChainGo, clipSeg, segConstraints, updC, lerp,
      flushCur, CS2_HALF_MAP, CS2_MAP_SIZE, opt_none_eq_some, Prod.ext_iff,
      -Prod.mk_zero_zero]
  · norm_num [clip_and_convert_line, project_nodes, CoordinateTransformer.xz,
      m_per_lat, tfW, elevW, exFourCross, dedupConsec, dedupGo, xzOf,
      clipLineXZ, zipPairs, clipChainGo, clipSeg, segConstraints, updC, lerp,
      flushCur, CS2_HALF_MAP, CS2_MAP_SIZE, opt_none_eq_some, Prod.ext_iff,
      -Prod.mk_zero_zero]

/-- Concrete evaluation of the polygon pipeline at the triangle fixture. -/
lemma polyEvalW : clip_and_convert_polygon tfW oraclePolyW coordsPW elevW =
    some [⟨0, 0, 0⟩, ⟨1000, 0, 0⟩, ⟨0, 0, 1000⟩, ⟨0, 0, 0⟩] := by
  norm_num [clip_and_convert_polygon, polyFinish, mkCS2, interp_elevation,
    distList, List.insertionSort, List.orderedInsert, distLE, project_nodes,
    CoordinateTransformer.xz, m_per_lat, tfW, elevW, coordsPW, oraclePolyW,
    ringW, dedupXZ, dedupXZGo, xzOf, round2, round6, Prod.ext_iff,
    -Prod.mk_zero_zero]

/-- Witness for C1: a vertex of the clipped triangle lies inside the map. -/
theorem clip_points_within_map_witness :
    |(⟨1000, 0, 0⟩ : CS2Point).x| ≤ CS2_HALF_MAP ∧
    |(⟨1000, 0, 0⟩ : CS2Point).z| ≤ CS2_HALF_MAP :=
  clip_points_within_map.2 tfW oraclePolyW coordsPW elevW
    (by norm_num [oraclePolyW, geomWithinBox, ringW, inBox, CS2_HALF_MAP,
      CS2_MAP_SIZE])
    _ polyEvalW ⟨1000, 0, 0⟩
    (List.mem_cons_of_mem _ (List.mem_cons_self _ _))

/-- Witness for C3: the two-crossing example has at least two candidate
nodes, and its output count equals its sub-polyline count. -/
theorem line_one_segment_per_subpolyline_witness :
    2 ≤ (line_candidates tfW exTwoCross elevW).length ∧
    (clip_and_convert_line tfW exTwoCross elevW).length =
      (clipLineXZ (xzOf (line_candidates tfW exTwoCross elevW))).length := by
  have hc : 2 ≤ (line_candidates tfW exTwoCross elevW).length := by
    norm_num [line_candidates, project_nodes, CoordinateTransformer.xz,
      m_per_lat, tfW, elevW, exTwoCross, dedupConsec, dedupGo, Prod.ext_iff,
      -Prod.mk_zero_zero]
  exact ⟨hc, line_one_segment_per_subpolyline.2.1 tfW exTwoCross elevW hc⟩

/-- Witness for C5: a polyline entirely east of the map clips to nothing,
and an empty polygon intersection yields the sentinel none. -/
theorem entirely_outside_results_witness :
    clip_and_convert_line tfW exOutside elevW = [] ∧
    clip_and_convert_polygon tfW oracleEmptyW coordsPW elevW = none := by
  constructor
  · apply entirely_outside_results.1 tfW exOutside elevW
    intro pq hpq t ht0 ht1 hbox
    simp only [project_nodes, xzOf, zipPairs, tfW, elevW, exOutside,
      CoordinateTransformer.xz, m_per_lat, List.map_cons, List.map_nil,
      List.tail_cons, List.zip_cons_cons, List.zip_nil_right,
      List.mem_singleton] at hpq
    norm_num at hpq
    subst hpq
    obtain ⟨hx, -⟩ := hbox
    simp only [lerp] at hx
    have hx2 := (abs_le.1 hx).2
    norm_num [CS2_HALF_MAP, CS2_MAP_SIZE] at hx2
    nlinarith
  · exact entirely_outside_results.2.1 tfW oracleEmptyW coordsPW elevW rfl

/-- Witness for C6: the clipped triangle vertex (1000, 0) carries the
elevation interpolated at its own coordinates from the pre-clip nodes. -/
theorem elevation_from_preclip_candidates_witness :
    ∃ c : ℚ × ℚ, (⟨1000, 0, 0⟩ : CS2Point) =
      ⟨round2 c.1,
       round2 (interp_elevation c.1 c.2 (project_nodes tfW coordsPW elevW)),
       round2 c.2⟩ :=
  elevation_from_preclip_candidates.2 tfW oraclePolyW coordsPW elevW
    _ polyEvalW ⟨1000, 0, 0⟩
    (List.mem_cons_of_mem _ (List.mem_cons_self _ _))

/-- Witness for C7: with a two-piece MultiPolygon intersection, the result
is built from the exterior ring of a maximal-area piece. -/
theorem polygon_keeps_largest_piece_witness :
    ∃ p ∈ [pieceSmallW, pieceBigW],
      (∀ q ∈ [pieceSmallW, pieceBigW], polyArea q ≤ polyArea p) ∧
      clip_and_convert_polygon tfW oracleMultiW coordsPW elevW =
        polyFinish (project_nodes tfW coordsPW elevW) p.1 :=
  polygon_keeps_largest_piece tfW oracleMultiW coordsPW elevW pieceSmallW
    [pieceBigW] (by norm_num [coordsPW])
    (by norm_num [project_nodes, CoordinateTransformer.xz, m_per_lat, tfW,
      elevW, coordsPW, dedupXZ, dedupXZGo, xzOf, Prod.ext_iff,
      -Prod.mk_zero_zero])
    rfl

/-- Witness for C9: the route fixture keeps exactly its resolving stop
references, in order, and is emitted. -/
theorem routes_keep_resolved_stops_witness :
    ∃ ro ∈ (convert_transit tfW elevW dataW).routes,
      ro.id = "route_" ++ routeW.rid ∧
      ro.stops.Sublist (routeW.stop_ids.map (fun sid => "stop_" ++ sid)) ∧
      ∀ s : String, s ∈ ro.stops ↔
        (s ∈ routeW.stop_ids.map (fun sid => "stop_" ++ sid) ∧
         s ∈ (convert_transit tfW elevW dataW).stops.map StopOut.id) :=
  (routes_keep_resolved_stops tfW elevW dataW).2 routeW (by simp [dataW])
